import Mathlib

/-!
Verification of the OpenAQ extraction pipeline (E-crls/nasa_models_2025).

The development shallowly embeds the pure logic of the four Python files:

* src/OPENAQ/extract_1000_points_la_v2.py — paginated fetch loop
  (extract_measurements_from_sensor) with inline unit conversion,
  timestamp-union combination of the per-pollutant series, and tail trim;
* src/OPENAQ/extract_1000_daily_la.py — the daily variant of the same loop
  (extract_daily_measurements_from_sensor);
* src/OPENAQ/no2/create_daily_no2.py — hourly-to-daily groupby-mean
  aggregation rounded to 3 decimals;
* src/OPENAQ/split_air_quality_data.py — column projection (no logic
  needed by the claims).

Timestamps are modelled as natural numbers counting hours since an epoch,
so the calendar date of an instant t is t / 24 and midnight of date d is
d * 24.  Values are rational numbers.  The remote API is modelled as an
oracle from page numbers to responses; a response is either a transport
error (covering request failure and raise_for_status) or a list of raw
records.  A raw record carries the outcome of reading the nested
period.datetimeFrom.utc field (missing, present-but-unparseable, or a
parsed instant), the optional value field, and the parameter.units string.
-/

/-- Outcome of reading and parsing the period.datetimeFrom.utc field of a
record: the field can be absent or falsy (the code then hits the
`if not timestamp_str: continue` branch), present but rejected by
pd.to_datetime (an exception, caught by the per-record handler), or parsed
to an instant. -/
inductive TsParse where
  | missing : TsParse
  | malformed : TsParse
  | ok : ℕ → TsParse
deriving DecidableEq, Repr

/-- A raw API record, as far as the extraction code inspects it. -/
structure RawRecord where
  ts : TsParse
  value : Option ℚ
  units : String
deriving DecidableEq, Repr

/-- A page request either fails at transport level or returns a list of
records (the results array). -/
inductive FetchResp where
  | err : FetchResp
  | page : List RawRecord → FetchResp
deriving DecidableEq, Repr

/-- Python str.lower restricted to the ASCII strings that appear as unit
and parameter names in this code base. -/
def pyLower (s : String) : String := String.mk (s.data.map Char.toLower)

/-- Unit conversion of extract_1000_points_la_v2.py lines 79-86: when the
unit string lowercases to "ppm" the value is scaled by the pollutant
specific factor (no2 1880, o3 1960, hcho 1230); any other unit leaves the
value unchanged. -/
def convertUnit (value : ℚ) (unit : String) (param : String) : ℚ :=
  if pyLower unit = "ppm" then
    if pyLower param = "no2" then value * 1880
    else if pyLower param = "o3" then value * 1960
    else if pyLower param = "hcho" then value * 1230
    else value
  else value

/-- Unit conversion of extract_1000_daily_la.py lines 79-83: identical to
convertUnit except that there is no hcho branch. -/
def convertUnitDaily (value : ℚ) (unit : String) (param : String) : ℚ :=
  if pyLower unit = "ppm" then
    if pyLower param = "no2" then value * 1880
    else if pyLower param = "o3" then value * 1960
    else value
  else value

/-- Per-record processing of extract_1000_points_la_v2.py lines 63-90:
a missing timestamp field skips the record, a timestamp that fails to
parse raises and is skipped by the per-record except, a missing value
skips the record, and otherwise the (timestamp, converted value) pair is
accumulated. -/
def processRecord (param : String) (r : RawRecord) : Option (ℕ × ℚ) :=
  match r.ts with
  | TsParse.missing => none
  | TsParse.malformed => none
  | TsParse.ok t =>
    match r.value with
    | none => none
    | some v => some (t, convertUnit v r.units param)

/-- Per-record processing of extract_1000_daily_la.py lines 60-88: as
processRecord but the parsed instant is truncated to its calendar date
(pd.to_datetime(...).date()) and the conversion has no hcho branch. -/
def processRecordDaily (param : String) (r : RawRecord) : Option (ℕ × ℚ) :=
  match r.ts with
  | TsParse.missing => none
  | TsParse.malformed => none
  | TsParse.ok t =>
    match r.value with
    | none => none
    | some v => some (t / 24, convertUnitDaily v r.units param)

/-- The paginated fetch loop shared by extract_1000_points_la_v2.py lines
42-103 and extract_1000_daily_la.py lines 40-101, parameterized by the
per-record processor.  The state is the page counter (starting at 1) and
the accumulator; the fuel argument only realizes in Lean the termination
that the page ceiling already enforces (the initial fuel 50 is never
exhausted before the ceiling check fires).  The first component of the
result is none when a page request raised (the outer except is applied by
extractCore), and the second component counts the page requests issued. -/
def runLoop (proc : RawRecord → Option (ℕ × ℚ)) (oracle : ℕ → FetchResp) (target : ℕ) :
    ℕ → ℕ → List (ℕ × ℚ) → Option (List (ℕ × ℚ)) × ℕ
  | 0, _, acc => (some acc, 0)
  | fuel + 1, page, acc =>
    if acc.length < target then
      match oracle page with
      | FetchResp.err => (none, 1)
      | FetchResp.page results =>
        if results = [] then (some acc, 1)
        else
          let acc2 := acc ++ results.filterMap proc
          if target ≤ acc2.length then (some acc2, 1)
          else if 50 < page + 1 then (some acc2, 1)
          else
            let r := runLoop proc oracle target fuel (page + 1) acc2
            (r.1, r.2 + 1)
    else (some acc, 0)

/-- Post-loop normalization of extract_1000_points_la_v2.py lines 106-113:
sort the accumulator ascending by timestamp and keep the trailing
target_points entries when the count exceeds the target. -/
def finalize (target : ℕ) (acc : List (ℕ × ℚ)) : List (ℕ × ℚ) :=
  let s := acc.mergeSort (fun a b => decide (a.1 ≤ b.1))
  if target < s.length then s.drop (s.length - target) else s

/-- The whole fetch of one series: run the loop from page 1 with an empty
accumulator; a transport error lands in the outer except of lines 122-124,
which returns an empty frame, discarding the accumulator. -/
def extractCore (proc : RawRecord → Option (ℕ × ℚ)) (oracle : ℕ → FetchResp)
    (target : ℕ) : List (ℕ × ℚ) :=
  match (runLoop proc oracle target 50 1 []).1 with
  | none => []
  | some acc => finalize target acc

/-- extract_measurements_from_sensor of extract_1000_points_la_v2.py,
restricted to its pure logic (the oracle stands for the HTTP session on the
measurements endpoint over the fixed 730-day window). -/
def extract_measurements_from_sensor (param : String) (oracle : ℕ → FetchResp)
    (target : ℕ) : List (ℕ × ℚ) :=
  extractCore (processRecord param) oracle target

/-- extract_daily_measurements_from_sensor of extract_1000_daily_la.py,
restricted to its pure logic (the oracle stands for the HTTP session on the
days endpoint over the fixed 1100-day window). -/
def extract_daily_measurements_from_sensor (param : String) (oracle : ℕ → FetchResp)
    (target : ℕ) : List (ℕ × ℚ) :=
  extractCore (processRecordDaily param) oracle target

/-- The measurements one page contributes to the accumulator (empty for an
erroring page). -/
def pageYield (proc : RawRecord → Option (ℕ × ℚ)) (oracle : ℕ → FetchResp)
    (p : ℕ) : List (ℕ × ℚ) :=
  match oracle p with
  | FetchResp.err => []
  | FetchResp.page rs => rs.filterMap proc

/-- Concatenated yields of the cnt consecutive pages starting at page. -/
def yieldSeg (proc : RawRecord → Option (ℕ × ℚ)) (oracle : ℕ → FetchResp)
    (page cnt : ℕ) : List (ℕ × ℚ) :=
  ((List.range cnt).map (fun i => pageYield proc oracle (page + i))).flatten

theorem pyLower_ppm : pyLower "ppm" = "ppm" := by decide

theorem pyLower_upper_ppm : pyLower "PPM" = "ppm" := by decide

theorem pyLower_no2 : pyLower "no2" = "no2" := by decide

theorem pyLower_o3 : pyLower "o3" = "o3" := by decide

theorem pyLower_hcho : pyLower "hcho" = "hcho" := by decide

theorem pyLower_ug : pyLower "ug/m3" = "ug/m3" := by decide

/-- A row of the combined table: the shared timestamp and one optional
cell per pollutant column merged so far (none models the NaN a left merge
leaves where the right frame has no matching timestamp). -/
abbrev AlignedRow : Type := ℕ × List (Option ℚ)

/-- Pandas left merge on the timestamp column, as used in
extract_1000_points_la_v2.py lines 210-223: every left row is joined with
every matching right row and receives a NaN cell when no right row
matches.  An empty right frame therefore behaves exactly like the
else-branch that fills the whole column with NaN. -/
def leftMerge (left : List AlignedRow) (right : List (ℕ × ℚ)) : List AlignedRow :=
  left.flatMap (fun row =>
    match right.filter (fun p => p.1 == row.1) with
    | [] => [(row.1, row.2 ++ [none])]
    | ms => ms.map (fun p => (row.1, row.2 ++ [some p.2])))

/-- The set union of the timestamps of all input series,
extract_1000_points_la_v2.py lines 196-204. -/
def allTimestamps (sl : List (List (ℕ × ℚ))) : Finset ℕ :=
  sl.foldl (fun acc s => acc ∪ (s.map Prod.fst).toFinset) ∅

/-- The combination step of extract_1000_points_la_v2.py lines 196-223:
build a base frame from the sorted union of all timestamps, then left
merge every pollutant series onto it in order. -/
def combineSeries (sl : List (List (ℕ × ℚ))) : List AlignedRow :=
  sl.foldl leftMerge
    (((allTimestamps sl).sort (· ≤ ·)).map (fun t => (t, ([] : List (Option ℚ)))))

/-- First value a series holds at a timestamp, in list order. -/
def lookupVal (t : ℕ) : List (ℕ × ℚ) → Option ℚ
  | [] => none
  | p :: ps => if p.1 = t then some p.2 else lookupVal t ps

/-- The final tail trim of extract_1000_points_la_v2.py lines 225-227 and
extract_1000_daily_la.py lines 197-199: keep the trailing target rows when
the frame is longer than the target, otherwise leave it alone. -/
def trimTable (target : ℕ) (rows : List AlignedRow) : List AlignedRow :=
  if target < rows.length then rows.drop (rows.length - target) else rows

/-- UTC calendar date of an instant measured in hours. -/
def dateOf (t : ℕ) : ℕ := t / 24

/-- The distinct dates occurring in a series,
create_daily_no2.py line 29 (df.groupby("date") group keys). -/
def dayDates (xs : List (ℕ × ℚ)) : Finset ℕ :=
  (xs.map (fun p => dateOf p.1)).toFinset

/-- The values a series holds on one date, in list order. -/
def dayValues (xs : List (ℕ × ℚ)) (d : ℕ) : List ℚ :=
  (xs.filter (fun p => dateOf p.1 == d)).map Prod.snd

/-- Arithmetic mean of the values of one date group,
create_daily_no2.py line 30 (agg mean). -/
def dayMean (xs : List (ℕ × ℚ)) (d : ℕ) : ℚ :=
  (dayValues xs d).sum / ((dayValues xs d).length : ℚ)

/-- Rounding half to even on the integers, the tie-breaking rule of the
numpy rounding that pandas Series.round applies. -/
def roundHalfEven (q : ℚ) : ℤ :=
  let f : ℤ := ⌊q⌋
  if q - f < 1 / 2 then f
  else if 1 / 2 < q - f then f + 1
  else if f % 2 = 0 then f else f + 1

/-- Series.round(3) of create_daily_no2.py line 37. -/
def round3 (q : ℚ) : ℚ := (roundHalfEven (q * 1000) : ℚ) / 1000

/-- create_daily_no2 of create_daily_no2.py lines 29-37, restricted to its
pure aggregation logic: group the hourly measurements by calendar date
(groupby sorts the group keys ascending), take the mean of every group,
stamp the result at midnight of its date, and round to 3 decimals. -/
def create_daily_no2 (xs : List (ℕ × ℚ)) : List (ℕ × ℚ) :=
  ((dayDates xs).sort (· ≤ ·)).map (fun d => (d * 24, round3 (dayMean xs d)))

/-- One-step unfolding of the fetch loop at positive fuel. -/
theorem runLoop_step (proc : RawRecord → Option (ℕ × ℚ)) (oracle : ℕ → FetchResp)
    (target fuel page : ℕ) (acc : List (ℕ × ℚ)) :
    runLoop proc oracle target (fuel + 1) page acc =
      if acc.length < target then
        match oracle page with
        | FetchResp.err => (none, 1)
        | FetchResp.page results =>
          if results = [] then (some acc, 1)
          else
            let acc2 := acc ++ results.filterMap proc
            if target ≤ acc2.length then (some acc2, 1)
            else if 50 < page + 1 then (some acc2, 1)
            else ((runLoop proc oracle target fuel (page + 1) acc2).1,
                  (runLoop proc oracle target fuel (page + 1) acc2).2 + 1)
      else (some acc, 0) := rfl

/-- The records of one page (empty for a transport error). -/
def pageRecords (oracle : ℕ → FetchResp) (p : ℕ) : List RawRecord :=
  match oracle p with
  | FetchResp.err => []
  | FetchResp.page rs => rs

/-- Raw records of the cnt consecutive pages starting at page. -/
def rawSeg (oracle : ℕ → FetchResp) (page cnt : ℕ) : List RawRecord :=
  ((List.range cnt).map (fun i => pageRecords oracle (page + i))).flatten

theorem yieldSeg_zero (proc : RawRecord → Option (ℕ × ℚ)) (oracle : ℕ → FetchResp)
    (page : ℕ) : yieldSeg proc oracle page 0 = [] := rfl

theorem yieldSeg_succ (proc : RawRecord → Option (ℕ × ℚ)) (oracle : ℕ → FetchResp)
    (page k : ℕ) :
    yieldSeg proc oracle page (k + 1) =
      pageYield proc oracle page ++ yieldSeg proc oracle (page + 1) k := by
  unfold yieldSeg
  rw [List.range_succ_eq_map, List.map_cons, List.flatten_cons, List.map_map]
  rw [show page + 0 = page from by omega]
  congr 1
  apply congrArg
  apply List.map_congr_left
  intro i _
  simp only [Function.comp_apply]
  congr 1
  omega

theorem rawSeg_succ (oracle : ℕ → FetchResp) (page k : ℕ) :
    rawSeg oracle page (k + 1) =
      pageRecords oracle page ++ rawSeg oracle (page + 1) k := by
  unfold rawSeg
  rw [List.range_succ_eq_map, List.map_cons, List.flatten_cons, List.map_map]
  rw [show page + 0 = page from by omega]
  congr 1
  apply congrArg
  apply List.map_congr_left
  intro i _
  simp only [Function.comp_apply]
  congr 1
  omega

/-- The yield of a page never exceeds its raw record count. -/
theorem pageYield_length_le (proc : RawRecord → Option (ℕ × ℚ)) (oracle : ℕ → FetchResp)
    (p : ℕ) : (pageYield proc oracle p).length ≤ (pageRecords oracle p).length := by
  unfold pageYield pageRecords
  cases oracle p with
  | err => simp
  | page rs => simpa using List.length_filterMap_le _ rs

theorem yieldSeg_length_le (proc : RawRecord → Option (ℕ × ℚ)) (oracle : ℕ → FetchResp)
    (page : ℕ) : ∀ cnt, (yieldSeg proc oracle page cnt).length ≤ (rawSeg oracle page cnt).length := by
  intro cnt
  induction cnt generalizing page with
  | zero => simp [yieldSeg, rawSeg]
  | succ k ih =>
    rw [yieldSeg_succ, rawSeg_succ]
    simp only [List.length_append]
    exact Nat.add_le_add (pageYield_length_le proc oracle page) (ih (page + 1))

/-- Everything the fetch loop observes about one page: whether it errs,
whether its results list is empty, and what it contributes to the
accumulator. -/
def pageObs (proc : RawRecord → Option (ℕ × ℚ)) (oracle : ℕ → FetchResp)
    (p : ℕ) : Option (Bool × List (ℕ × ℚ)) :=
  match oracle p with
  | FetchResp.err => none
  | FetchResp.page rs => some (rs.isEmpty, rs.filterMap proc)

/-- Two runs whose pages are observationally equal behave identically. -/
theorem runLoop_congr_obs (proc proc' : RawRecord → Option (ℕ × ℚ))
    (o o' : ℕ → FetchResp) (target : ℕ)
    (h : ∀ p, pageObs proc o p = pageObs proc' o' p) :
    ∀ fuel page acc, runLoop proc o target fuel page acc = runLoop proc' o' target fuel page acc := by
  intro fuel
  induction fuel with
  | zero => intro page acc; rfl
  | succ n ih =>
    intro page acc
    rw [runLoop_step, runLoop_step]
    by_cases hl : acc.length < target
    · rw [if_pos hl, if_pos hl]
      have hp := h page
      cases ho : o page with
      | err =>
        cases ho' : o' page with
        | err => rfl
        | page rs' => simp [pageObs, ho, ho'] at hp
      | page rs =>
        cases ho' : o' page with
        | err => simp [pageObs, ho, ho'] at hp
        | page rs' =>
          simp only [pageObs, ho, ho', Option.some.injEq, Prod.mk.injEq] at hp
          obtain ⟨he, hy⟩ := hp
          dsimp only
          by_cases hrs : rs = []
          · have hrs' : rs' = [] := by
              rw [hrs] at he
              exact List.isEmpty_iff.1 (by rw [← he]; rfl)
            rw [if_pos hrs, if_pos hrs']
          · have hrs' : rs' ≠ [] := by
              intro hc
              apply hrs
              apply List.isEmpty_iff.1
              rw [he, hc]
              rfl
            rw [if_neg hrs, if_neg hrs']
            simp only [hy, ih]
    · rw [if_neg hl, if_neg hl]

/-- If the page at index e errs, every earlier page from the current one
on is non-empty, and the measurements they yield leave the accumulator
short of the target, the loop ends in the error state. -/
theorem runLoop_err_aux (proc : RawRecord → Option (ℕ × ℚ)) (o : ℕ → FetchResp)
    (target e : ℕ) (he2 : e ≤ 50) (herr : o e = FetchResp.err) :
    ∀ fuel page acc, page ≤ e →
      (∀ p, page ≤ p → p < e → pageRecords o p ≠ []) →
      acc.length + (yieldSeg proc o page (e - page)).length < target →
      e - page < fuel →
      (runLoop proc o target fuel page acc).1 = none := by
  intro fuel
  induction fuel with
  | zero => intro page acc _ _ _ hf; omega
  | succ n ih =>
    intro page acc hpe hpages hlen hf
    rw [runLoop_step]
    by_cases hq : page = e
    · subst hq
      have hz : page - page = 0 := by omega
      rw [Nat.sub_self, yieldSeg_zero] at hlen
      rw [if_pos (by simpa using hlen)]
      simp only [herr]
    · have hlt : page < e := lt_of_le_of_ne hpe hq
      have hrecs := hpages page le_rfl hlt
      cases ho : o page with
      | err => exact absurd (by simp [pageRecords, ho]) hrecs
      | page rs =>
        have hrs : rs ≠ [] := by
          intro hc
          exact hrecs (by simp [pageRecords, ho, hc])
        have hseg : e - page = (e - (page + 1)) + 1 := by omega
        rw [hseg, yieldSeg_succ] at hlen
        have hpy : pageYield proc o page = rs.filterMap proc := by simp [pageYield, ho]
        rw [hpy, List.length_append] at hlen
        rw [if_pos (by omega)]
        simp only [ho]
        rw [if_neg hrs]
        rw [if_neg (by simp only [List.length_append]; omega)]
        rw [if_neg (by omega)]
        simp only []
        apply ih (page + 1) (acc ++ rs.filterMap proc) (by omega)
          (fun p hp1 hp2 => hpages p (by omega) hp2)
          (by simp only [List.length_append]; omega)
          (by omega)

/-- Dropping the first a entries of a map over range (a + b) leaves the map
of the shifted range. -/
theorem drop_map_range {α : Type} (f : ℕ → α) (a b : ℕ) :
    ((List.range (a + b)).map f).drop a = (List.range b).map (fun i => f (a + i)) := by
  rw [List.range_add, List.map_append, List.drop_left' (by simp), List.map_map]
  rfl

/-- C3 — unit conversion: a unit lowercasing to ppm scales by 1880 for
no2, 1960 for o3 and 1230 for hcho; any unit not lowercasing to ppm (in
particular the canonical ug/m3 and every unknown string) passes the value
through unchanged; the function is total, and convert(1, ppm, no2) = 1880
while convert(5, ug/m3, o3) = 5. -/
theorem convertUnit_spec :
    (∀ (v : ℚ) (u : String), pyLower u = "ppm" →
      convertUnit v u "no2" = v * 1880 ∧ convertUnit v u "o3" = v * 1960 ∧
        convertUnit v u "hcho" = v * 1230) ∧
    (∀ (v : ℚ) (u p : String), pyLower u ≠ "ppm" → convertUnit v u p = v) ∧
    convertUnit 1 "ppm" "no2" = 1880 ∧
    convertUnit 5 "ug/m3" "o3" = 5 := by
  refine ⟨fun v u h => ⟨?_, ?_, ?_⟩, fun v u p h => ?_, ?_, ?_⟩
  · simp [convertUnit, h, pyLower_no2]
  · simp [convertUnit, h, pyLower_o3]
  · simp [convertUnit, h, pyLower_hcho]
  · simp [convertUnit, h]
  · simp [convertUnit, pyLower_ppm, pyLower_no2]
  · simp [convertUnit, pyLower_ug]

/-- Witness for convertUnit_spec at concrete inputs: the ppm branch with an
upper-case unit string and the pass-through branch with an unknown unit. -/
theorem convertUnit_spec_witness :
    convertUnit 2 "PPM" "no2" = 2 * 1880 ∧ convertUnit 7 "mg/m3" "nox" = 7 :=
  ⟨(convertUnit_spec.1 2 "PPM" pyLower_upper_ppm).1,
   convertUnit_spec.2.1 7 "mg/m3" "nox" (by decide)⟩

/-- C8 counterexample record: an hcho reading in ppm at hour 26. -/
def hchoRec : RawRecord := { ts := TsParse.ok 26, value := some 1, units := "ppm" }

/-- C8 — counterexample: per-record processing of the two variants disagrees
for the pollutant hcho, because the daily variant has no hcho conversion
branch (and additionally truncates the timestamp to its date). -/
theorem variants_differ_hcho_cex :
    processRecordDaily "hcho" hchoRec ≠ processRecord "hcho" hchoRec := by
  have h1 : processRecordDaily "hcho" hchoRec = some (1, 1) := by
    simp [processRecordDaily, hchoRec, convertUnitDaily, pyLower_ppm, pyLower_hcho]
  have h2 : processRecord "hcho" hchoRec = some (26, 1230) := by
    simp [processRecord, hchoRec, convertUnit, pyLower_ppm, pyLower_hcho]
  rw [h1, h2]
  intro h
  simp only [Option.some.injEq, Prod.mk.injEq] at h
  omega

/-- C8 amended: for the pollutants no2 and o3 the per-record
processing agrees exactly, up to the daily variant truncating the parsed
instant to its calendar date; their unit conversions coincide on these
pollutants.  The surrounding fetch loop, accumulation, sort and trailing
trim are the one algorithm extractCore for both variants. -/
theorem variants_agree_no2_o3 (param : String) (r : RawRecord) (v : ℚ) (u : String)
    (h : param = "no2" ∨ param = "o3") :
    processRecordDaily param r = (processRecord param r).map (fun p => (p.1 / 24, p.2)) ∧
    convertUnitDaily v u param = convertUnit v u param := by
  have hc : ∀ (w : ℚ) (u2 : String), convertUnitDaily w u2 param = convertUnit w u2 param := by
    intro w u2
    rcases h with h | h <;> subst h <;>
      by_cases hu : pyLower u2 = "ppm" <;>
        simp [convertUnit, convertUnitDaily, hu, pyLower_no2, pyLower_o3]
  refine ⟨?_, hc v u⟩
  rcases hr : r.ts with _ | _ | t <;>
    simp [processRecord, processRecordDaily, hr]
  rcases hv : r.value with _ | w <;> simp [hv, hc]

/-- A concrete 1500-row aligned table with timestamps 0..1499. -/
def rows1500 : List AlignedRow := (List.range 1500).map (fun i => (i, []))

/-- C9 — the trailing trim of the combined table: a table no longer than
the target is returned unchanged; a longer table is cut to its trailing
target rows, a suffix of the original of length exactly target, in
unchanged order; when the rows ascend by timestamp the timestamp of every
dropped row is at most that of every kept row; and a 1500-row table trimmed to
1000 keeps exactly rows 501 through 1500. -/
theorem trimTable_spec :
    (∀ (rows : List AlignedRow) (target : ℕ), rows.length ≤ target →
      trimTable target rows = rows) ∧
    (∀ (rows : List AlignedRow) (target : ℕ), target < rows.length →
      trimTable target rows = rows.drop (rows.length - target) ∧
      (trimTable target rows).length = target ∧
      (trimTable target rows).IsSuffix rows) ∧
    (∀ (rows : List AlignedRow) (target : ℕ),
      List.Sorted (fun a b : AlignedRow => a.1 ≤ b.1) rows →
      ∀ a ∈ rows.take (rows.length - target), ∀ b ∈ trimTable target rows, a.1 ≤ b.1) ∧
    trimTable 1000 rows1500 = (List.range 1000).map (fun i => (500 + i, [])) := by
  refine ⟨fun rows target h => ?_, fun rows target h => ⟨?_, ?_, ?_⟩,
    fun rows target hs a ha b hb => ?_, ?_⟩
  · simp [trimTable, Nat.not_lt.2 h]
  · simp [trimTable, h]
  · simp only [trimTable, if_pos h, List.length_drop]
    omega
  · simp only [trimTable, if_pos h]
    exact List.drop_suffix _ rows
  · by_cases h : target < rows.length
    · have hrw : trimTable target rows = rows.drop (rows.length - target) := by
        simp [trimTable, h]
      rw [hrw] at hb
      have hp : List.Pairwise (fun a b : AlignedRow => a.1 ≤ b.1)
          (rows.take (rows.length - target) ++ rows.drop (rows.length - target)) := by
        rw [List.take_append_drop]
        exact hs
      exact (List.pairwise_append.1 hp).2.2 a ha b hb
    · have hz : rows.length - target = 0 := by omega
      rw [hz] at ha
      simp at ha
  · have hlen : (1000 : ℕ) < rows1500.length := by simp [rows1500]
    have h1 : rows1500.length - 1000 = 500 := by simp [rows1500]
    simp only [trimTable, if_pos hlen, h1]
    have : rows1500.drop 500 = (List.range 1000).map (fun i => ((500 + i : ℕ), ([] : List (Option ℚ)))) := by
      unfold rows1500
      rw [show (1500 : ℕ) = 500 + 1000 by norm_num, drop_map_range]
    exact this

/-- Witness for trimTable_spec: the no-op case for a short table and the
trailing-trim case for the 1500-row table. -/
theorem trimTable_spec_witness :
    trimTable 2000 rows1500 = rows1500 ∧ (trimTable 1000 rows1500).length = 1000 :=
  ⟨trimTable_spec.1 rows1500 2000 (by simp [rows1500]),
   (trimTable_spec.2.1 rows1500 1000 (by simp [rows1500])).2.1⟩

/-- Witness for variants_agree_no2_o3: a concrete no2 record in ppm. -/
theorem variants_agree_no2_o3_witness :
    processRecordDaily "no2" { ts := TsParse.ok 25, value := some 2, units := "ppm" } =
      (processRecord "no2" { ts := TsParse.ok 25, value := some 2, units := "ppm" }).map
        (fun p => (p.1 / 24, p.2)) ∧
    convertUnitDaily 3 "ppm" "no2" = convertUnit 3 "ppm" "no2" :=
  variants_agree_no2_o3 "no2" _ 3 "ppm" (Or.inl rfl)

/-- C10 — a record whose timestamp fails to parse (the pd.to_datetime
exception caught by the per-record handler) is skipped by itself: deleting
it from its page changes nothing observable, so the remaining records of
that page and all later pages are processed identically and no accumulated
measurement is lost, in both extraction variants. -/
theorem malformed_record_skipped (param : String) (o o' : ℕ → FetchResp)
    (target k : ℕ) (bad : RawRecord) (xs ys : List RawRecord)
    (hbad : bad.ts = TsParse.malformed)
    (hk : o k = FetchResp.page (xs ++ bad :: ys))
    (hk' : o' k = FetchResp.page (xs ++ ys))
    (hne : xs ++ ys ≠ [])
    (hrest : ∀ p, p ≠ k → o p = o' p) :
    extract_measurements_from_sensor param o target =
      extract_measurements_from_sensor param o' target ∧
    extract_daily_measurements_from_sensor param o target =
      extract_daily_measurements_from_sensor param o' target := by
  have hobs : ∀ proc : RawRecord → Option (ℕ × ℚ), proc bad = none →
      ∀ p, pageObs proc o p = pageObs proc o' p := by
    intro proc hpb p
    by_cases hp : p = k
    · subst hp
      simp only [pageObs, hk, hk']
      have h1 : (xs ++ bad :: ys).isEmpty = (xs ++ ys).isEmpty := by
        have hx : (xs ++ bad :: ys).isEmpty = false := by
          simp [List.isEmpty_eq_false_iff_exists_mem]
        have hx' : (xs ++ ys).isEmpty = false := by
          cases hxy : xs ++ ys with
          | nil => exact absurd hxy hne
          | cons a l => simp
        rw [hx, hx']
      have h2 : (xs ++ bad :: ys).filterMap proc = (xs ++ ys).filterMap proc := by
        simp [List.filterMap_append, List.filterMap_cons, hpb]
      rw [h1, h2]
    · unfold pageObs
      rw [hrest p hp]
  have hm : processRecord param bad = none := by simp [processRecord, hbad]
  have hd : processRecordDaily param bad = none := by simp [processRecordDaily, hbad]
  constructor
  · unfold extract_measurements_from_sensor extractCore
    rw [runLoop_congr_obs _ _ _ _ _ (hobs _ hm) 50 1 []]
  · unfold extract_daily_measurements_from_sensor extractCore
    rw [runLoop_congr_obs _ _ _ _ _ (hobs _ hd) 50 1 []]

/-- A valid record on page 1 of the skip-witness oracles. -/
def goodRec : RawRecord := { ts := TsParse.ok 3, value := some 4, units := "ug/m3" }

/-- A record whose timestamp string does not parse. -/
def badRec : RawRecord := { ts := TsParse.malformed, value := some 9, units := "ug/m3" }

/-- Oracle whose first page holds a good record followed by a malformed
one. -/
def oracleWithBad : ℕ → FetchResp := fun p =>
  if p = 1 then FetchResp.page [goodRec, badRec] else FetchResp.page []

/-- The same oracle with the malformed record deleted. -/
def oracleWithoutBad : ℕ → FetchResp := fun p =>
  if p = 1 then FetchResp.page [goodRec] else FetchResp.page []

/-- Witness for malformed_record_skipped on concrete oracles. -/
theorem malformed_record_skipped_witness :
    extract_measurements_from_sensor "no2" oracleWithBad 5 =
      extract_measurements_from_sensor "no2" oracleWithoutBad 5 ∧
    extract_daily_measurements_from_sensor "no2" oracleWithBad 5 =
      extract_daily_measurements_from_sensor "no2" oracleWithoutBad 5 :=
  malformed_record_skipped "no2" oracleWithBad oracleWithoutBad 5 1 badRec [goodRec] []
    rfl rfl rfl (by simp)
    (fun p hp => by simp [oracleWithBad, oracleWithoutBad, hp])

/-- C1 amended: a transport error on any requested page makes the fetch
return the empty series — the error is never propagated, but the
measurements accumulated from earlier pages are discarded, not returned.
The hypotheses describe a run that actually reaches the erroring page e:
every earlier page is non-empty and the raw records seen so far leave the
accumulator short of the target. -/
theorem extract_error_returns_empty (param : String) (o : ℕ → FetchResp)
    (target e : ℕ) (he1 : 1 ≤ e) (he2 : e ≤ 50)
    (herr : o e = FetchResp.err)
    (hpages : ∀ p, 1 ≤ p → p < e → pageRecords o p ≠ [])
    (hraw : (rawSeg o 1 (e - 1)).length < target) :
    extract_measurements_from_sensor param o target = [] ∧
    extract_daily_measurements_from_sensor param o target = [] := by
  have key : ∀ proc : RawRecord → Option (ℕ × ℚ), extractCore proc o target = [] := by
    intro proc
    have hy : (yieldSeg proc o 1 (e - 1)).length ≤ (rawSeg o 1 (e - 1)).length :=
      yieldSeg_length_le proc o 1 (e - 1)
    have h1 : (runLoop proc o target 50 1 []).1 = none := by
      apply runLoop_err_aux proc o target e he2 herr 50 1 []
      · exact he1
      · exact fun p hp1 hp2 => hpages p hp1 hp2
      · simp only [List.length_nil]
        omega
      · omega
    unfold extractCore
    rw [h1]
  exact ⟨key _, key _⟩

/-- Oracle erring on every page. -/
def alwaysErr : ℕ → FetchResp := fun _ => FetchResp.err

/-- Witness for extract_error_returns_empty: an error on the very first
page yields the empty series in both variants. -/
theorem extract_error_returns_empty_witness :
    extract_measurements_from_sensor "o3" alwaysErr 1 = [] ∧
    extract_daily_measurements_from_sensor "o3" alwaysErr 1 = [] :=
  extract_error_returns_empty "o3" alwaysErr 1 1 le_rfl (by omega) rfl
    (fun p hp1 hp2 => absurd (lt_of_le_of_lt hp1 hp2) (lt_irrefl 1))
    (by simp [rawSeg])

/-- Oracle delivering one good measurement on page 1 and erring from page
2 on. -/
def errAfterOne : ℕ → FetchResp := fun p =>
  if p = 1 then FetchResp.page [{ ts := TsParse.ok 0, value := some 1, units := "ug/m3" }]
  else FetchResp.err

/-- C1 counterexample: with one measurement accumulated from page 1 and a
transport error on page 2, the fetch returns the empty series, not the
accumulated series [(0, 1)] the claim promises. -/
theorem extract_error_cex :
    extract_measurements_from_sensor "no2" errAfterOne 2 = [] ∧
    extract_measurements_from_sensor "no2" errAfterOne 2 ≠ [(0, 1)] := by
  decide

/-- The request counter is bounded by the pages remaining below the
ceiling. -/
theorem runLoop_count_le (proc : RawRecord → Option (ℕ × ℚ)) (o : ℕ → FetchResp)
    (target : ℕ) :
    ∀ fuel page acc, page ≤ 50 → (runLoop proc o target fuel page acc).2 ≤ 51 - page := by
  intro fuel
  induction fuel with
  | zero => intro page acc hp; simp [runLoop]
  | succ n ih =>
    intro page acc hp
    rw [runLoop_step]
    by_cases hl : acc.length < target
    · rw [if_pos hl]
      cases ho : o page with
      | err => simp; omega
      | page rs =>
        dsimp only
        by_cases hrs : rs = []
        · rw [if_pos hrs]; simp; omega
        · rw [if_neg hrs]
          by_cases h2 : target ≤ (acc ++ rs.filterMap proc).length
          · rw [if_pos h2]; simp; omega
          · rw [if_neg h2]
            by_cases h3 : 50 < page + 1
            · rw [if_pos h3]; simp; omega
            · rw [if_neg h3]
              have := ih (page + 1) (acc ++ rs.filterMap proc) (by omega)
              dsimp only
              omega
    · rw [if_neg hl]; simp

/-- The fuel is irrelevant as soon as it covers the pages remaining below
the ceiling: termination of the loop is enforced by the ceiling check, not
by the fuel. -/
theorem runLoop_fuel_irrel (proc : RawRecord → Option (ℕ × ℚ)) (o : ℕ → FetchResp)
    (target : ℕ) :
    ∀ f1 f2 page acc, page ≤ 50 → 51 - page ≤ f1 → 51 - page ≤ f2 →
      runLoop proc o target f1 page acc = runLoop proc o target f2 page acc := by
  intro f1
  induction f1 with
  | zero => intro f2 page acc hp hf1 hf2; exact absurd hf1 (by omega)
  | succ n ih =>
    intro f2 page acc hp hf1 hf2
    cases f2 with
    | zero => exact absurd hf2 (by omega)
    | succ m =>
      rw [runLoop_step, runLoop_step]
      by_cases hl : acc.length < target
      · rw [if_pos hl, if_pos hl]
        cases ho : o page with
        | err => rfl
        | page rs =>
          dsimp only
          by_cases hrs : rs = []
          · rw [if_pos hrs, if_pos hrs]
          · rw [if_neg hrs, if_neg hrs]
            by_cases hta : target ≤ (acc ++ rs.filterMap proc).length
            · rw [if_pos hta, if_pos hta]
            · rw [if_neg hta, if_neg hta]
              by_cases h3 : 50 < page + 1
              · rw [if_pos h3, if_pos h3]
              · rw [if_neg h3, if_neg h3]
                rw [ih m (page + 1) _ (by omega) (by omega) (by omega)]
      · rw [if_neg hl, if_neg hl]

/-- When every page below the ceiling is non-empty and their combined
yield stays short of the target, the loop walks all of them and stops at
the ceiling with the accumulated partial series. -/
theorem runLoop_ceiling_aux (proc : RawRecord → Option (ℕ × ℚ)) (o : ℕ → FetchResp)
    (target : ℕ) (hpages : ∀ p, 1 ≤ p → p ≤ 50 → pageRecords o p ≠ []) :
    ∀ fuel page acc, 1 ≤ page → page ≤ 50 →
      acc.length + (yieldSeg proc o page (51 - page)).length < target →
      51 - page ≤ fuel →
      (runLoop proc o target fuel page acc).1 =
        some (acc ++ yieldSeg proc o page (51 - page)) := by
  intro fuel
  induction fuel with
  | zero => intro page acc h1 h2 _ hf; exact absurd hf (by omega)
  | succ n ih =>
    intro page acc h1 h2 hlen hf
    have hrecs := hpages page h1 h2
    cases ho : o page with
    | err => exact absurd (by simp [pageRecords, ho]) hrecs
    | page rs =>
      have hrs : rs ≠ [] := fun hc => hrecs (by simp [pageRecords, ho, hc])
      have hseg : 51 - page = (50 - page) + 1 := by omega
      rw [hseg, yieldSeg_succ] at hlen ⊢
      have hpy : pageYield proc o page = rs.filterMap proc := by simp [pageYield, ho]
      rw [hpy] at hlen ⊢
      rw [runLoop_step]
      rw [if_pos (by simp only [List.length_append] at hlen ⊢; omega)]
      simp only [ho]
      rw [if_neg hrs]
      rw [if_neg (by simp only [List.length_append] at hlen ⊢; omega)]
      by_cases hp50 : page = 50
      · subst hp50
        rw [if_pos (by omega)]
        simp [yieldSeg_zero]
      · rw [if_neg (by omega)]
        rw [ih (page + 1) (acc ++ rs.filterMap proc) (by omega) (by omega) ?_ ?_]
        · rw [show 50 - page = 51 - (page + 1) from by omega]
          rw [List.append_assoc]
        · rw [show 51 - (page + 1) = 50 - page from by omega]
          simp only [List.length_append] at hlen ⊢
          omega
        · omega

/-- C6 — the paginated fetch loop terminates: it issues at most 50 page
requests for every oracle; its behavior does not depend on the Lean fuel
once the fuel covers the 50-page ceiling; and when every page below the
ceiling is non-empty while the accumulated yield stays short of the
target, the loop soft-stops at the ceiling and the partial accumulated
series is still returned (and then normalized as usual). -/
theorem fetch_loop_bounded :
    (∀ (proc : RawRecord → Option (ℕ × ℚ)) (o : ℕ → FetchResp) (target : ℕ),
      (runLoop proc o target 50 1 []).2 ≤ 50) ∧
    (∀ (proc : RawRecord → Option (ℕ × ℚ)) (o : ℕ → FetchResp) (target fuel : ℕ),
      50 ≤ fuel → runLoop proc o target fuel 1 [] = runLoop proc o target 50 1 []) ∧
    (∀ (proc : RawRecord → Option (ℕ × ℚ)) (o : ℕ → FetchResp) (target : ℕ),
      (∀ p, 1 ≤ p → p ≤ 50 → pageRecords o p ≠ []) →
      (yieldSeg proc o 1 50).length < target →
      (runLoop proc o target 50 1 []).1 = some (yieldSeg proc o 1 50) ∧
      extractCore proc o target = finalize target (yieldSeg proc o 1 50)) := by
  refine ⟨fun proc o target => ?_, fun proc o target fuel hf => ?_, fun proc o target hp hl => ?_⟩
  · simpa using runLoop_count_le proc o target 50 1 [] (by omega)
  · exact runLoop_fuel_irrel proc o target fuel 50 1 [] (by omega) (by omega) (by omega)
  · have h1 : (runLoop proc o target 50 1 []).1 = some (yieldSeg proc o 1 50) := by
      have := runLoop_ceiling_aux proc o target hp 50 1 []
        (by omega) (by omega) (by simpa using hl) (by omega)
      simpa using this
    refine ⟨h1, ?_⟩
    unfold extractCore
    rw [h1]

/-- Oracle whose every page holds one valid record. -/
def constOracle : ℕ → FetchResp := fun _ => FetchResp.page [goodRec]

/-- Witness for fetch_loop_bounded: fuel irrelevance at fuel 60 and the
ceiling soft-stop on an oracle with 50 non-empty pages and target 100. -/
theorem fetch_loop_bounded_witness :
    runLoop (processRecord "no2") constOracle 100 60 1 [] =
      runLoop (processRecord "no2") constOracle 100 50 1 [] ∧
    (runLoop (processRecord "no2") constOracle 100 50 1 []).1 =
      some (yieldSeg (processRecord "no2") constOracle 1 50) ∧
    extractCore (processRecord "no2") constOracle 100 =
      finalize 100 (yieldSeg (processRecord "no2") constOracle 1 50) :=
  ⟨fetch_loop_bounded.2.1 _ _ _ 60 (by omega),
   (fetch_loop_bounded.2.2 _ _ _ (fun p _ _ => by simp [pageRecords, constOracle]) (by decide)).1,
   (fetch_loop_bounded.2.2 _ _ _ (fun p _ _ => by simp [pageRecords, constOracle]) (by decide)).2⟩

/-- A measurement point whose value is its own timestamp. -/
def fpt (t : ℕ) : ℕ × ℚ := (t, (t : ℚ))

/-- A page of n valid records with consecutive timestamps starting at s,
already in the canonical unit. -/
def mkPage (s n : ℕ) : List RawRecord :=
  (List.range n).map
    (fun i => { ts := TsParse.ok (s + i), value := some ((s + i : ℕ) : ℚ), units := "ug/m3" })

theorem processRecord_ug (t : ℕ) (v : ℚ) :
    processRecord "no2" { ts := TsParse.ok t, value := some v, units := "ug/m3" } =
      some (t, v) := by
  simp [processRecord, convertUnit, pyLower_ug]

theorem filterMap_mkPage (s n : ℕ) :
    (mkPage s n).filterMap (processRecord "no2") =
      (List.range n).map (fun i => fpt (s + i)) := by
  unfold mkPage
  rw [List.filterMap_map]
  apply List.filterMap_eq_map_iff_forall_eq_some.2
  intro i _
  exact processRecord_ug (s + i) _

theorem mkPage_ne_nil (s n : ℕ) (h : 0 < n) : mkPage s n ≠ [] := by
  simp only [mkPage, ne_eq, List.map_eq_nil_iff, List.range_eq_nil]
  omega

/-- Two successful pages that together reach the target: the loop requests
pages 1 and 2, stops, and never touches any later page (the oracle is
unconstrained beyond page 2). -/
theorem runLoop_two_pages (proc : RawRecord → Option (ℕ × ℚ)) (o : ℕ → FetchResp)
    (target : ℕ) (rs1 rs2 : List RawRecord)
    (h1 : o 1 = FetchResp.page rs1) (h2 : o 2 = FetchResp.page rs2)
    (hrs1 : rs1 ≠ []) (hrs2 : rs2 ≠ [])
    (hlen1 : (rs1.filterMap proc).length < target)
    (hlen2 : target ≤ (rs1.filterMap proc).length + (rs2.filterMap proc).length)
    (htpos : 0 < target) :
    runLoop proc o target 50 1 [] =
      (some (rs1.filterMap proc ++ rs2.filterMap proc), 2) := by
  rw [show (50 : ℕ) = 49 + 1 from rfl, runLoop_step]
  rw [if_pos (by simpa using htpos)]
  simp only [h1]
  rw [if_neg hrs1]
  rw [List.nil_append]
  rw [if_neg (by omega)]
  rw [if_neg (by omega)]
  rw [show (49 : ℕ) = 48 + 1 from rfl, runLoop_step]
  rw [if_pos hlen1]
  simp only [h2]
  rw [if_neg hrs2]
  rw [if_pos (by simp only [List.length_append]; omega)]

theorem map_fpt_cat :
    (List.range 1000).map (fun i => fpt (0 + i)) ++ (List.range 1000).map (fun i => fpt (1000 + i)) =
      (List.range 2000).map fpt := by
  rw [show (2000 : ℕ) = 1000 + 1000 by norm_num, List.range_add, List.map_append, List.map_map]
  have hA : (List.range 1000).map (fun i => fpt (0 + i)) = (List.range 1000).map fpt :=
    List.map_congr_left (fun i _ => by rw [Nat.zero_add])
  have hB : (List.range 1000).map (fpt ∘ fun i => 1000 + i) =
      (List.range 1000).map (fun i => fpt (1000 + i)) :=
    List.map_congr_left (fun i _ => rfl)
  rw [hA, hB]

theorem sorted_map_fpt (n : ℕ) :
    List.Pairwise (fun a b : ℕ × ℚ => decide (a.1 ≤ b.1) = true) ((List.range n).map fpt) := by
  apply List.Pairwise.map fpt
    (fun a b (h : a < b) => by simpa [fpt] using Nat.le_of_lt h)
  exact List.pairwise_lt_range n

/-- C2 — fetch with target 1500 against a source whose first two pages
hold 1000 valid records each: the loop stops after the second page (any
behavior of later pages, including the specified 200-record third page and
empty fourth page, is never observed), and the returned series is exactly
the trailing 1500 of the 2000 accumulated measurements, sorted ascending
by timestamp, of length 1500. -/
theorem extract_stops_at_target (o : ℕ → FetchResp)
    (h1 : o 1 = FetchResp.page (mkPage 0 1000))
    (h2 : o 2 = FetchResp.page (mkPage 1000 1000)) :
    extract_measurements_from_sensor "no2" o 1500 =
      (List.range 1500).map (fun i => fpt (500 + i)) ∧
    (extract_measurements_from_sensor "no2" o 1500).length = 1500 ∧
    List.Sorted (fun a b : ℕ × ℚ => a.1 ≤ b.1)
      (extract_measurements_from_sensor "no2" o 1500) := by
  have hL1 : ((mkPage 0 1000).filterMap (processRecord "no2")).length = 1000 := by
    rw [filterMap_mkPage]; simp
  have hL2 : ((mkPage 1000 1000).filterMap (processRecord "no2")).length = 1000 := by
    rw [filterMap_mkPage]; simp
  have hrun := runLoop_two_pages (processRecord "no2") o 1500 (mkPage 0 1000) (mkPage 1000 1000)
    h1 h2 (mkPage_ne_nil 0 1000 (by omega)) (mkPage_ne_nil 1000 1000 (by omega))
    (by omega) (by omega) (by omega)
  have hmain : extract_measurements_from_sensor "no2" o 1500 =
      (List.range 1500).map (fun i => fpt (500 + i)) := by
    unfold extract_measurements_from_sensor extractCore
    rw [hrun]
    show finalize 1500 ((mkPage 0 1000).filterMap (processRecord "no2") ++
      (mkPage 1000 1000).filterMap (processRecord "no2")) = _
    rw [filterMap_mkPage, filterMap_mkPage, map_fpt_cat]
    unfold finalize
    rw [List.mergeSort_of_sorted (sorted_map_fpt 2000)]
    rw [if_pos (by simp)]
    have hdrop : (((List.range 2000).map fpt).length - 1500) = 500 := by simp
    rw [hdrop]
    rw [show (2000 : ℕ) = 500 + 1500 by norm_num, drop_map_range]
  refine ⟨hmain, ?_, ?_⟩
  · rw [hmain]; simp
  · rw [hmain]
    exact List.Pairwise.map _ (fun a b h => by simp [fpt]; omega)
      (List.pairwise_lt_range 1500)

/-- Oracle realizing the C2 scenario: pages of 1000, 1000 and 200 valid
records followed by empty pages. -/
def pagedOracle : ℕ → FetchResp := fun p =>
  if p = 1 then FetchResp.page (mkPage 0 1000)
  else if p = 2 then FetchResp.page (mkPage 1000 1000)
  else if p = 3 then FetchResp.page (mkPage 2000 200)
  else FetchResp.page []

/-- Witness for extract_stops_at_target on the concrete paged oracle. -/
theorem extract_stops_at_target_witness :
    extract_measurements_from_sensor "no2" pagedOracle 1500 =
      (List.range 1500).map (fun i => fpt (500 + i)) :=
  (extract_stops_at_target pagedOracle rfl rfl).1

theorem lookupVal_eq_none (t : ℕ) (s : List (ℕ × ℚ)) :
    lookupVal t s = none ↔ t ∉ s.map Prod.fst := by
  induction s with
  | nil => simp [lookupVal]
  | cons p ps ih =>
    rw [lookupVal]
    by_cases h : p.1 = t
    · simp [h]
    · rw [if_neg h, ih]
      simp only [List.map_cons, List.mem_cons]
      constructor
      · intro hn hc
        rcases hc with hc | hc
        · exact h hc.symm
        · exact hn hc
      · intro hn hc
        exact hn (Or.inr hc)

theorem filter_beq_of_nodup (t : ℕ) (s : List (ℕ × ℚ)) (h : (s.map Prod.fst).Nodup) :
    s.filter (fun p => p.1 == t) =
      match lookupVal t s with
      | none => []
      | some v => [(t, v)] := by
  induction s with
  | nil => rfl
  | cons p ps ih =>
    rw [List.map_cons, List.nodup_cons] at h
    obtain ⟨hp, hps⟩ := h
    rw [List.filter_cons, lookupVal]
    by_cases hpt : p.1 = t
    · subst hpt
      rw [if_pos rfl]
      have hnil : ps.filter (fun q => q.1 == p.1) = [] := by
        apply List.filter_eq_nil_iff.2
        intro q hq
        simp only [beq_iff_eq]
        intro hqt
        exact hp (hqt ▸ List.mem_map_of_mem Prod.fst hq)
      rw [if_pos (by simp), hnil]
    · rw [if_neg hpt, if_neg (by simp [hpt]), ih hps]

theorem leftMerge_nil (s : List (ℕ × ℚ)) : leftMerge [] s = [] := rfl

theorem leftMerge_cons (r : AlignedRow) (rows : List AlignedRow) (s : List (ℕ × ℚ)) :
    leftMerge (r :: rows) s =
      (match s.filter (fun p => p.1 == r.1) with
        | [] => [(r.1, r.2 ++ [none])]
        | ms => ms.map (fun p => (r.1, r.2 ++ [some p.2]))) ++ leftMerge rows s := by
  unfold leftMerge
  rw [List.flatMap_cons]

theorem leftMerge_of_nodup (left : List AlignedRow) (s : List (ℕ × ℚ))
    (h : (s.map Prod.fst).Nodup) :
    leftMerge left s = left.map (fun row => (row.1, row.2 ++ [lookupVal row.1 s])) := by
  induction left with
  | nil => rfl
  | cons r rows ih =>
    rw [leftMerge_cons, ih, List.map_cons]
    rw [filter_beq_of_nodup r.1 s h]
    cases hl : lookupVal r.1 s with
    | none => simp
    | some v => simp

theorem foldl_leftMerge (ss : List (List (ℕ × ℚ))) :
    ∀ rows : List AlignedRow, (∀ s ∈ ss, (s.map Prod.fst).Nodup) →
      ss.foldl leftMerge rows =
        rows.map (fun row => (row.1, row.2 ++ ss.map (fun s => lookupVal row.1 s))) := by
  induction ss with
  | nil =>
    intro rows _
    simp
  | cons s ss ih =>
    intro rows h
    rw [List.foldl_cons]
    rw [ih (leftMerge rows s) (fun x hx => h x (List.mem_cons_of_mem s hx))]
    rw [leftMerge_of_nodup rows s (h s (List.mem_cons_self s ss))]
    rw [List.map_map]
    apply List.map_congr_left
    intro row _
    simp

theorem combineSeries_closed (sl : List (List (ℕ × ℚ)))
    (h : ∀ s ∈ sl, (s.map Prod.fst).Nodup) :
    combineSeries sl =
      ((allTimestamps sl).sort (· ≤ ·)).map
        (fun t => (t, sl.map (fun s => lookupVal t s))) := by
  unfold combineSeries
  rw [foldl_leftMerge sl _ h, List.map_map]
  apply List.map_congr_left
  intro t _
  simp

theorem mem_allTimestamps (sl : List (List (ℕ × ℚ))) (t : ℕ) :
    t ∈ allTimestamps sl ↔ ∃ s ∈ sl, t ∈ s.map Prod.fst := by
  unfold allTimestamps
  suffices h : ∀ acc : Finset ℕ,
      (t ∈ sl.foldl (fun acc s => acc ∪ (s.map Prod.fst).toFinset) acc ↔
        t ∈ acc ∨ ∃ s ∈ sl, t ∈ s.map Prod.fst) by
    simpa using h ∅
  induction sl with
  | nil => intro acc; simp
  | cons s ss ih =>
    intro acc
    rw [List.foldl_cons, ih]
    simp only [Finset.mem_union, List.mem_toFinset, List.mem_cons]
    constructor
    · rintro ((ha | hs) | ⟨x, hx, hxt⟩)
      · exact Or.inl ha
      · exact Or.inr ⟨s, Or.inl rfl, hs⟩
      · exact Or.inr ⟨x, Or.inr hx, hxt⟩
    · rintro (ha | ⟨x, (rfl | hx), hxt⟩)
      · exact Or.inl (Or.inl ha)
      · exact Or.inl (Or.inr hxt)
      · exact Or.inr ⟨x, hx, hxt⟩

/-- The alignment invariant: the combined table is the sorted union of the
input timestamps, each appearing exactly once as a key, rows ascending,
with a cell absent (none, not zero) exactly when that series holds no
measurement at that timestamp, and an empty table when all inputs are
empty. -/
def alignProp (sl : List (List (ℕ × ℚ))) : Prop :=
  combineSeries sl =
    ((allTimestamps sl).sort (· ≤ ·)).map
      (fun t => (t, sl.map (fun s => lookupVal t s))) ∧
  ((combineSeries sl).map Prod.fst).Nodup ∧
  List.Sorted (· < ·) ((combineSeries sl).map Prod.fst) ∧
  (∀ t : ℕ, t ∈ (combineSeries sl).map Prod.fst ↔ ∃ s ∈ sl, t ∈ s.map Prod.fst) ∧
  (∀ row ∈ combineSeries sl, ∀ j, j < sl.length →
    (row.2.getD j (some 0) = none ↔ row.1 ∉ (sl.getD j []).map Prod.fst)) ∧
  ((∀ s ∈ sl, s = []) → combineSeries sl = [])

/-- C4 — the combination step of extract_1000_points_los_angeles, for
input series without duplicate timestamps: its keys are exactly the union
of the input timestamps, each exactly once, ascending; a pollutant cell is
absent exactly when that series has no measurement at the row timestamp;
and all-empty input gives the empty table. -/
theorem combineSeries_spec (sl : List (List (ℕ × ℚ)))
    (h : ∀ s ∈ sl, (s.map Prod.fst).Nodup) : alignProp sl := by
  have hc := combineSeries_closed sl h
  have hkeys : (combineSeries sl).map Prod.fst = (allTimestamps sl).sort (· ≤ ·) := by
    rw [hc, List.map_map]
    rw [show (Prod.fst ∘ fun t : ℕ => (t, sl.map (fun s => lookupVal t s))) = id from rfl,
      List.map_id]
  refine ⟨hc, ?_, ?_, ?_, ?_, ?_⟩
  · rw [hkeys]
    exact Finset.sort_nodup _ _
  · rw [hkeys]
    exact Finset.sort_sorted_lt _
  · intro t
    rw [hkeys, Finset.mem_sort, mem_allTimestamps]
  · intro row hrow j hj
    rw [hc] at hrow
    obtain ⟨t, _, rfl⟩ := List.mem_map.1 hrow
    have h2 : ((sl.map (fun s => lookupVal t s)).getD j (some 0)) =
        lookupVal t (sl.getD j []) := by
      rw [List.getD_eq_getElem?_getD, List.getElem?_map,
        List.getElem?_eq_getElem hj, List.getD_eq_getElem?_getD,
        List.getElem?_eq_getElem hj]
      rfl
    show (sl.map (fun s => lookupVal t s)).getD j (some 0) = none ↔ _
    rw [h2]
    exact lookupVal_eq_none t _
  · intro hall
    have hemp : allTimestamps sl = ∅ := by
      apply Finset.eq_empty_iff_forall_not_mem.2
      intro t ht
      obtain ⟨s, hs, hts⟩ := (mem_allTimestamps sl t).1 ht
      rw [hall s hs] at hts
      simp at hts
    rw [hc, hemp, Finset.sort_empty, List.map_nil]

/-- The two-series example of the spec: series A at timestamps 1, 2 and
series B at timestamps 2, 3. -/
def sl2 : List (List (ℕ × ℚ)) := [[(1, 5), (2, 6)], [(2, 7), (3, 8)]]

/-- Witness for combineSeries_spec on the concrete two-series input. -/
theorem combineSeries_spec_witness : alignProp sl2 :=
  combineSeries_spec sl2 (by decide)

/-- C4 counterexample: a series holding two measurements at the same
timestamp makes the left merge duplicate that key, so the combined table
lists timestamp 0 twice and its keys are not nodup. -/
theorem combineSeries_dup_cex :
    (combineSeries [[(0, 5), (0, 6)]]).map Prod.fst = [0, 0] ∧
    ¬ ((combineSeries [[(0, 5), (0, 6)]]).map Prod.fst).Nodup := by
  have ha : allTimestamps [[(0, 5), (0, 6)]] = {0} := by decide
  have h : combineSeries [[(0, 5), (0, 6)]] = [(0, [some 5]), (0, [some 6])] := by
    unfold combineSeries
    rw [ha, Finset.sort_singleton]
    rfl
  rw [h]
  constructor
  · rfl
  · decide

/-- A rational that is already an integer multiple of one thousandth is
fixed by rounding to 3 decimals. -/
theorem round3_of_int (q : ℚ) (n : ℤ) (h : q * 1000 = (n : ℚ)) :
    round3 q = (n : ℚ) / 1000 := by
  unfold round3 roundHalfEven
  rw [h, Int.floor_intCast]
  rw [if_pos (by rw [sub_self]; norm_num)]

/-- C5 — daily aggregation: output keys are strictly ascending midnights;
every output row sits at a midnight whose date occurs in the input and
carries the 3-decimal rounding of the arithmetic mean of exactly the
values of that date; every input date produces its row; empty input yields empty
output; and the measurements 10 at hour 2 and 20 at hour 14 of date 0
aggregate to the single value 15 at midnight 0. -/
theorem create_daily_spec :
    (∀ xs : List (ℕ × ℚ), List.Sorted (· < ·) ((create_daily_no2 xs).map Prod.fst)) ∧
    (∀ (xs : List (ℕ × ℚ)) (t : ℕ) (v : ℚ), (t, v) ∈ create_daily_no2 xs →
      t % 24 = 0 ∧ (∃ p ∈ xs, dateOf p.1 = t / 24) ∧ v = round3 (dayMean xs (t / 24))) ∧
    (∀ (xs : List (ℕ × ℚ)) (d : ℕ), d ∈ xs.map (fun p => dateOf p.1) →
      (d * 24, round3 (dayMean xs d)) ∈ create_daily_no2 xs) ∧
    create_daily_no2 [] = [] ∧
    create_daily_no2 [(2, 10), (14, 20)] = [(0, 15)] := by
  refine ⟨fun xs => ?_, fun xs t v hm => ?_, fun xs d hd => ?_, ?_, ?_⟩
  · unfold create_daily_no2
    rw [List.map_map]
    exact List.Pairwise.map _ (fun a b h => by simp only [Function.comp_apply]; omega)
      (Finset.sort_sorted_lt (dayDates xs))
  · unfold create_daily_no2 at hm
    obtain ⟨d, hd, heq⟩ := List.mem_map.1 hm
    rw [Prod.mk.injEq] at heq
    obtain ⟨ht, hv⟩ := heq
    have hd2 : d ∈ dayDates xs := (Finset.mem_sort _).1 hd
    obtain ⟨p, hp, hpd⟩ := List.mem_map.1 (List.mem_toFinset.1 hd2)
    refine ⟨by omega, ⟨p, hp, by omega⟩, ?_⟩
    have hdt : t / 24 = d := by omega
    rw [hdt]
    exact hv.symm
  · unfold create_daily_no2
    apply List.mem_map.2
    refine ⟨d, ?_, rfl⟩
    rw [Finset.mem_sort]
    exact List.mem_toFinset.2 hd
  · unfold create_daily_no2 dayDates
    rw [List.map_nil, List.toFinset_nil, Finset.sort_empty, List.map_nil]
  · have hd : dayDates [(2, 10), (14, 20)] = {0} := by decide
    unfold create_daily_no2
    rw [hd, Finset.sort_singleton, List.map_cons, List.map_nil]
    have hvals : dayValues [(2, 10), (14, 20)] 0 = [10, 20] := by
      simp [dayValues, dateOf]
    have hmean : dayMean [(2, 10), (14, 20)] 0 = 15 := by
      unfold dayMean
      rw [hvals]
      norm_num
    rw [hmean, round3_of_int 15 15000 (by norm_num)]
    norm_num

/-- Witness for create_daily_spec: the membership conjunct instantiated at
the concrete two-measurement input. -/
theorem create_daily_spec_witness :
    (0 : ℕ) % 24 = 0 ∧
    (∃ p ∈ [((2 : ℕ), (10 : ℚ)), (14, 20)], dateOf p.1 = 0 / 24) ∧
    (15 : ℚ) = round3 (dayMean [((2 : ℕ), (10 : ℚ)), (14, 20)] (0 / 24)) :=
  create_daily_spec.2.1 [(2, 10), (14, 20)] 0 15
    (by rw [create_daily_spec.2.2.2.2]; exact List.mem_singleton.2 rfl)

theorem create_daily_map_aux :
    ∀ xs : List (ℕ × ℚ),
      List.Pairwise (· < ·) (xs.map (fun p => dateOf p.1)) →
      (∀ p ∈ xs, p.1 % 24 = 0) →
      (∀ p ∈ xs, round3 p.2 = p.2) →
      (xs.map (fun p => dateOf p.1)).map
        (fun d => (d * 24, round3 (dayMean xs d))) = xs := by
  intro xs
  induction xs with
  | nil => intro _ _ _; rfl
  | cons p rest ih =>
    intro h1 h2 h3
    rw [List.map_cons] at h1
    rw [List.pairwise_cons] at h1
    obtain ⟨h1a, h1b⟩ := h1
    rw [List.map_cons, List.map_cons]
    have hnil : rest.filter (fun q => dateOf q.1 == dateOf p.1) = [] := by
      apply List.filter_eq_nil_iff.2
      intro q hq
      simp only [beq_iff_eq]
      have := h1a (dateOf q.1) (List.mem_map_of_mem _ hq)
      omega
    have hvals : dayValues (p :: rest) (dateOf p.1) = [p.2] := by
      unfold dayValues
      rw [List.filter_cons, if_pos (by simp), hnil]
      rfl
    have hmean : dayMean (p :: rest) (dateOf p.1) = p.2 := by
      unfold dayMean
      rw [hvals]
      norm_num
    have hts : dateOf p.1 * 24 = p.1 :=
      Nat.div_mul_cancel (Nat.dvd_of_mod_eq_zero (h2 p (List.mem_cons_self p rest)))
    have hhead : (dateOf p.1 * 24, round3 (dayMean (p :: rest) (dateOf p.1))) = p := by
      rw [hmean, hts, h3 p (List.mem_cons_self p rest)]
    rw [hhead]
    have htail : (rest.map (fun q => dateOf q.1)).map
        (fun d => (d * 24, round3 (dayMean (p :: rest) d))) =
        (rest.map (fun q => dateOf q.1)).map
          (fun d => (d * 24, round3 (dayMean rest d))) := by
      apply List.map_congr_left
      intro d hd
      have hdp : dateOf p.1 < d := h1a d hd
      have hv : dayValues (p :: rest) d = dayValues rest d := by
        unfold dayValues
        rw [List.filter_cons, if_neg (by simp only [beq_iff_eq]; omega)]
      have hm : dayMean (p :: rest) d = dayMean rest d := by
        unfold dayMean
        rw [hv]
      rw [hm]
    rw [htail]
    rw [ih h1b (fun q hq => h2 q (List.mem_cons_of_mem p hq))
      (fun q hq => h3 q (List.mem_cons_of_mem p hq))]

/-- C7 amended: aggregating an already-daily series — one measurement per
calendar date, timestamps at midnight, dates ascending — returns the very
same series provided every value already carries at most 3 decimals; in
general the aggregation re-rounds each value to 3 decimals (the mean of a
single value is that value, then rounded). -/
theorem create_daily_idempotent_rounded (xs : List (ℕ × ℚ))
    (h1 : List.Pairwise (· < ·) (xs.map (fun p => dateOf p.1)))
    (h2 : ∀ p ∈ xs, p.1 % 24 = 0)
    (h3 : ∀ p ∈ xs, round3 p.2 = p.2) :
    create_daily_no2 xs = xs := by
  unfold create_daily_no2
  have hnodup : (xs.map (fun p => dateOf p.1)).Nodup :=
    h1.imp (fun hab => Nat.ne_of_lt hab)
  have hsorted : List.Sorted (· ≤ ·) (xs.map (fun p => dateOf p.1)) :=
    h1.imp (fun hab => Nat.le_of_lt hab)
  have hsort : (dayDates xs).sort (· ≤ ·) = xs.map (fun p => dateOf p.1) :=
    (List.toFinset_sort _ hnodup).2 hsorted
  rw [show dayDates xs = (xs.map (fun p => dateOf p.1)).toFinset from rfl] at hsort
  rw [show dayDates xs = (xs.map (fun p => dateOf p.1)).toFinset from rfl, hsort]
  exact create_daily_map_aux xs h1 h2 h3

/-- Witness for create_daily_idempotent_rounded: a two-day daily series
with 3-decimal values is returned unchanged. -/
theorem create_daily_idempotent_witness :
    create_daily_no2 [(0, 1 / 2), (24, 3)] = [(0, 1 / 2), (24, 3)] :=
  create_daily_idempotent_rounded [(0, 1 / 2), (24, 3)]
    (by simp [dateOf])
    (by decide)
    (by
      intro p hp
      simp only [List.mem_cons, List.not_mem_nil, or_false] at hp
      rcases hp with rfl | rfl
      · rw [round3_of_int (1 / 2) 500 (by norm_num)]
        norm_num
      · rw [round3_of_int 3 3000 (by norm_num)]
        norm_num)

/-- C7 counterexample: a one-day series whose value 0.1234 carries four
decimals is not returned unchanged — the aggregation rounds it to 0.123. -/
theorem create_daily_idempotent_cex :
    create_daily_no2 [(0, 617 / 5000)] ≠ [(0, 617 / 5000)] := by
  have hd : dayDates [(0, 617 / 5000)] = {0} := by
    simp [dayDates, dateOf]
  have hvals : dayValues [(0, 617 / 5000)] 0 = [617 / 5000] := by
    simp [dayValues, dateOf]
  have hmean : dayMean [(0, 617 / 5000)] 0 = 617 / 5000 := by
    unfold dayMean
    rw [hvals]
    norm_num
  have hr : round3 (617 / 5000 : ℚ) = 123 / 1000 := by
    unfold round3 roundHalfEven
    rw [show (617 / 5000 : ℚ) * 1000 = 617 / 5 by norm_num]
    rw [show ⌊(617 / 5 : ℚ)⌋ = 123 by rw [Int.floor_eq_iff]; norm_num]
    rw [if_pos (by norm_num)]
    norm_num
  have h : create_daily_no2 [(0, 617 / 5000)] = [(0, 123 / 1000)] := by
    unfold create_daily_no2
    rw [hd, Finset.sort_singleton, List.map_cons, List.map_nil, hmean, hr]
  rw [h]
  intro hc
  rw [List.cons.injEq, Prod.mk.injEq] at hc
  have := hc.1.2
  norm_num at this
